import Mathlib

/-!
Verification development for the WIB session game engine (src/wib_bot.py).

The Python source is shallowly embedded: each SQL row set that an operation
reads or writes becomes a Lean structure, every handler becomes a pure
function from that state to an `Option` of the new state (`none` models the
early-return / rollback paths, which perform no mutation), and Python list
sorting (stable Timsort over a key) is modelled with the stable
`List.insertionSort` over the corresponding total preorder.
-/

namespace WIB

/-! ### Trivia submissions and resolution (wib_bot.py, compute_trivia_outcome / reveal) -/

/-- One row of the `trivia_submissions` table (user_id, value_int, submitted_at_ms). -/
structure TriviaSub where
  user : Int
  value : Int
  ts : Int
deriving DecidableEq, Repr

/-- Sort key used for exact matches: `exacts.sort(key=lambda r: int(r["submitted_at_ms"]))`. -/
def tsLe (a b : TriviaSub) : Prop := a.ts ≤ b.ts

instance : DecidableRel tsLe := fun x y => inferInstanceAs (Decidable (x.ts ≤ y.ts))

instance : IsTotal TriviaSub tsLe := ⟨fun a b => le_total a.ts b.ts⟩

instance : IsTrans TriviaSub tsLe := ⟨fun _ _ _ h1 h2 => le_trans h1 h2⟩

/-- Absolute difference from the correct answer: `abs(int(r["value_int"]) - correct)`. -/
def triviaDiff (correct : Int) (a : TriviaSub) : Nat := (a.value - correct).natAbs

/-- Sort key for the no-exact-match branch:
`scored.sort(key=lambda t: (t[0], t[1]))`, i.e. lexicographic on (diff, ts). -/
def diffTsLe (correct : Int) (a b : TriviaSub) : Prop :=
  triviaDiff correct a < triviaDiff correct b ∨
    (triviaDiff correct a = triviaDiff correct b ∧ a.ts ≤ b.ts)

instance (correct : Int) : DecidableRel (diffTsLe correct) := fun x y =>
  inferInstanceAs (Decidable (triviaDiff correct x < triviaDiff correct y ∨
    (triviaDiff correct x = triviaDiff correct y ∧ x.ts ≤ y.ts)))

instance (correct : Int) : IsTotal TriviaSub (diffTsLe correct) := by
  refine ⟨fun a b => ?_⟩
  rcases lt_trichotomy (triviaDiff correct a) (triviaDiff correct b) with h | h | h
  · exact Or.inl (Or.inl h)
  · rcases le_total a.ts b.ts with h2 | h2
    · exact Or.inl (Or.inr ⟨h, h2⟩)
    · exact Or.inr (Or.inr ⟨h.symm, h2⟩)
  · exact Or.inr (Or.inl h)

instance (correct : Int) : IsTrans TriviaSub (diffTsLe correct) := by
  refine ⟨fun a b c h1 h2 => ?_⟩
  rcases h1 with h1 | ⟨h1, h1t⟩ <;> rcases h2 with h2 | ⟨h2, h2t⟩
  · exact Or.inl (lt_trans h1 h2)
  · exact Or.inl (h2 ▸ h1)
  · exact Or.inl (h1 ▸ h2)
  · exact Or.inr ⟨h1.trans h2, le_trans h1t h2t⟩

/-- `compute_trivia_outcome` (wib_bot.py lines 750-778): with no submissions the
result is `None`; otherwise, if any submission equals the correct answer, the
exact matches are sorted by timestamp and the first wins (flag `true`); else all
submissions are sorted by (absolute difference, timestamp) and the first wins
(flag `false`).  Returns (user_id, value, was_exact). -/
def compute_trivia_outcome (correct : Int) (subs : List TriviaSub) :
    Option (Int × Int × Bool) :=
  if subs = [] then none
  else
    let exacts := subs.filter (fun r => r.value = correct)
    if exacts = [] then
      match List.insertionSort (diffTsLe correct) subs with
      | [] => none
      | t :: _ => some (t.user, t.value, false)
    else
      match List.insertionSort tsLe exacts with
      | [] => none
      | t :: _ => some (t.user, t.value, true)

/-- Slot state row (`slot_state` table): slot_user_id, turns_left, pending_action. -/
structure SlotState where
  slotUser : Option Int
  turnsLeft : Int
  pendingAction : Option String
deriving DecidableEq, Repr

/-- The slot upsert performed by `/wib reveal` (lines 1038-1043): the winner (or
NULL when there is no outcome) becomes the slot holder with turns_left reset to
0 and pending_action cleared. -/
def revealSlotState (outcome : Option (Int × Int × Bool)) : SlotState :=
  { slotUser := outcome.map (fun w => w.1), turnsLeft := 0, pendingAction := none }

/-! ### Card deck and reveals (CardButton.callback, wib_bot.py lines 524-635) -/

/-- One tagged card record of the deck_json column: a dict with a "type" key
(PIECE / PASS / STEAL / DONATE / WILDCARD) and, for pieces, a "reveal" key
(one of the strings W1, W2, W3). -/
inductive Card where
  | piece (reveal : String)
  | pass
  | steal
  | donate
  | wildcard
deriving DecidableEq, Repr

/-- Python truthiness of the nullable pending_action column, as tested by
`if slot["pending_action"]:`. -/
def pendingTruthy : Option String → Bool
  | none => false
  | some s => !(s == "")

/-- The rows read and written by a card reveal: the slot_state row and the
box_secrets row (phrase words, deck, revealed-index list) of the current box. -/
structure BoxState where
  slot : SlotState
  phrase1 : String
  phrase2 : String
  phrase3 : String
  deck : List Card
  revealed : List Nat
deriving DecidableEq, Repr

/-- `revealed.add(self.idx)` followed by `json.dumps(sorted(list(revealed)))`:
the index enters the stored sorted list (the gate guarantees it was absent). -/
def revealedInsert (idx : Nat) (l : List Nat) : List Nat :=
  List.insertionSort (· ≤ ·) (idx :: l)

/-- The acceptance gate and the two unconditional updates of
`CardButton.callback` (lines 538-574): the acting user must be the current
slot holder, turns_left must be positive, no pending_action may be set, the
index must not be revealed yet (and must be in deck range — an out-of-range
index raises before any write, so nothing is committed).  On accept the index
is added to the revealed set and turns_left is decremented by one. -/
def revealAccept (st : BoxState) (userId : Int) (idx : Nat) : Option BoxState :=
  match st.slot.slotUser with
  | none => none
  | some holder =>
    if holder ≠ userId then none
    else if st.slot.turnsLeft ≤ 0 then none
    else if pendingTruthy st.slot.pendingAction then none
    else if idx ∈ st.revealed then none
    else if idx < st.deck.length then
      some { st with
        revealed := revealedInsert idx st.revealed,
        slot := { st.slot with turnsLeft := st.slot.turnsLeft - 1 } }
    else none

/-- The WILDCARD outcome pool (lines 596-598): PASS / STEAL / BONUS_TURN, plus
DONATE on the mega box (box 6). -/
def wildcardEffects (boxId : Int) : List String :=
  ["PASS", "STEAL", "BONUS_TURN"] ++ (if boxId = 6 then ["DONATE"] else [])

/-- `random.choice(effects)` at line 599 draws from the process-wide global
generator, not from the per-(seed,box) stream; the draw is modelled by the
free parameter `g` (the index the global generator happens to produce). -/
def wildcardChosen (boxId : Int) (g : Nat) : String :=
  (wildcardEffects boxId).getD (g % (wildcardEffects boxId).length) "PASS"

/-- The card effect applied after the accepted reveal (lines 579-624):
PIECE only announces a word; PASS/STEAL/DONATE set pending_action; a WILDCARD
resolving to BONUS_TURN re-increments turns_left capped at 5, any other
wildcard outcome is stored as the pending action. -/
def applyCard (boxId : Int) (c : Card) (g : Nat) (st : BoxState) : BoxState :=
  match c with
  | Card.piece _ => st
  | Card.pass => { st with slot := { st.slot with pendingAction := some "PASS" } }
  | Card.steal => { st with slot := { st.slot with pendingAction := some "STEAL" } }
  | Card.donate => { st with slot := { st.slot with pendingAction := some "DONATE" } }
  | Card.wildcard =>
    if wildcardChosen boxId g = "BONUS_TURN" then
      { st with slot := { st.slot with turnsLeft := min 5 (st.slot.turnsLeft + 1) } }
    else
      { st with slot := { st.slot with pendingAction := some (wildcardChosen boxId g) } }

/-- The whole `CardButton.callback` transaction: gate, mark revealed, decrement,
then apply the effect of the card at the requested index. -/
def cardReveal (boxId : Int) (st : BoxState) (userId : Int) (idx : Nat) (g : Nat) :
    Option BoxState :=
  (revealAccept st userId idx).map
    (fun st1 => applyCard boxId (st1.deck.getD idx Card.pass) g st1)

/-- A sequence of reveal attempts (user, index, wildcard draw); a rejected
attempt leaves the state untouched. -/
def revealSeq (boxId : Int) (st : BoxState) (ops : List (Int × Nat × Nat)) : BoxState :=
  ops.foldl (fun s op => (cardReveal boxId s op.1 op.2.1 op.2.2).getD s) st

/-- Demonstration state for the C2 witness. -/
def stDemo : BoxState :=
  { slot := { slotUser := some 1, turnsLeft := 2, pendingAction := none },
    phrase1 := "ONE", phrase2 := "FINE", phrase3 := "MORNING",
    deck := [Card.piece "W1", Card.pass], revealed := [] }

/-- Demonstration state for C6: a lone WILDCARD card on the mega box. -/
def stWild : BoxState :=
  { slot := { slotUser := some 1, turnsLeft := 1, pendingAction := none },
    phrase1 := "ONE", phrase2 := "FINE", phrase3 := "MORNING",
    deck := [Card.wildcard], revealed := [] }

/-! ### Python string primitives, modelled character-wise so that every
definition evaluates inside the kernel -/

/-- The ASCII whitespace characters recognised by Python `str.strip` and
matched by the regex class `\s`. -/
def isSpaceChar (c : Char) : Bool :=
  c = ' ' || c = '\t' || c = '\n' || c = '\r' || c = '\x0b' || c = '\x0c'

/-- Python `s.strip()`: remove leading and trailing whitespace. -/
def pyStrip (s : String) : String :=
  String.mk (((s.data.dropWhile isSpaceChar).reverse.dropWhile isSpaceChar).reverse)

/-- Python `s.upper()` on the ASCII range the game uses. -/
def pyUpper (s : String) : String := String.mk (s.data.map Char.toUpper)

/-- Lexicographic comparison of character lists: the order Python uses to
sort a list of strings. -/
def lexLeChars : List Char → List Char → Bool
  | [], _ => true
  | _ :: _, [] => false
  | a :: s, b :: t => if a < b then true else if a = b then lexLeChars s t else false

/-- Python string ordering (`sorted` on a list of strings). -/
def pyStrLe (s t : String) : Prop := lexLeChars s.data t.data = true

instance : DecidableRel pyStrLe := fun s t =>
  inferInstanceAs (Decidable (lexLeChars s.data t.data = true))

/-! ### Ordering round submission (/wib order, wib_bot.py lines 1162-1219) -/

/-- The row of `order_rounds` read by the submission handler. -/
structure OrderRound where
  isActive : Bool
  slotUser : Int
  correct : List Nat
deriving DecidableEq, Repr

/-- `x.strip().upper()` applied to every submitted letter (line 1166). -/
def normLetter (s : String) : String := pyUpper (pyStrip s)

/-- `ord(x) - 65` on a submitted (already validated, single capital letter)
string (line 1188). -/
def letterIndex (s : String) : Nat := (s.data.headD 'A').toNat - 65

/-- The order-independent validation at line 1167:
`sorted(letters) != ["A", "B", "C", "D", "E"]` rejects the submission. -/
def isPermutationABCDE (letters : List String) : Prop :=
  List.insertionSort pyStrLe letters = ["A", "B", "C", "D", "E"]

instance (letters : List String) : Decidable (isPermutationABCDE letters) :=
  inferInstanceAs (Decidable (_ = _))

/-- `sum(1 for i in range(5) if submitted_indices[i] == correct[i])` at
line 1189 (an out-of-range correct permutation would raise before any write,
hence the total `getD` reading never materialises for reachable rounds, whose
correct permutation always has five entries). -/
def orderScore (ls : List String) (correct : List Nat) : Nat :=
  ((List.range 5).filter
    (fun i => (ls.map letterIndex).getD i 0 = correct.getD i 0)).length

/-- The `/wib order` transaction (lines 1164-1199): reject a submission whose
normalised letters are not a permutation of A-E, or when the session is not
locked, no active round exists, or the submitter is not the bound slot holder;
otherwise score the submission, deactivate the round, and store the score as
the turns_left of the slot holder with pending_action cleared. -/
def submitOrder (locked : Bool) (round : Option OrderRound) (slot : SlotState)
    (userId : Int) (a b c d e : String) : Option (Nat × OrderRound × SlotState) :=
  if ¬ isPermutationABCDE ([a, b, c, d, e].map normLetter) then none
  else if locked = false then none
  else
    match round with
    | none => none
    | some r =>
      if r.isActive = false then none
      else if userId ≠ r.slotUser then none
      else
        some (orderScore ([a, b, c, d, e].map normLetter) r.correct,
          { r with isActive := false },
          { slot with
              turnsLeft := (orderScore ([a, b, c, d, e].map normLetter) r.correct : Int),
              pendingAction := none })

/-- Demonstration round for the C3 witness (the correct permutation of the
ordering example of the spec). -/
def rDemo : OrderRound := { isActive := true, slotUser := 1, correct := [2, 0, 4, 1, 3] }

/-- Demonstration slot (with a stale pending action) for the C3 witness. -/
def slotDemo : SlotState :=
  { slotUser := some 1, turnsLeft := 0, pendingAction := some "PASS" }

/-! ### Puzzle attempts and host checking (check_puzzle, wib_bot.py lines 1476-1550,
next_closest_puzzle_attempt lines 784-798) -/

/-- One row of the `puzzle_attempts` table. -/
structure PuzzleAttempt where
  boxId : Int
  attemptId : Nat
  user : Int
  g1 : String
  g2 : String
  g3 : String
  ts : Int
  checked : Bool
  score : Nat
deriving DecidableEq, Repr

/-- `compute_puzzle_position_score` (lines 781-782): the number of the three
positions whose guessed word equals the phrase word. -/
def compute_puzzle_position_score (c g : String × String × String) : Nat :=
  (if c.1 = g.1 then 1 else 0) + (if c.2.1 = g.2.1 then 1 else 0) +
    (if c.2.2 = g.2.2 then 1 else 0)

/-- The recomputed score of a stored attempt, as `next_closest_puzzle_attempt`
derives it from the guess words. -/
def attemptScore (phrase : String × String × String) (a : PuzzleAttempt) : Nat :=
  compute_puzzle_position_score phrase (a.g1, a.g2, a.g3)

/-- `ORDER BY attempt_id DESC`: larger attempt ids first. -/
def attemptIdGe (x y : PuzzleAttempt) : Prop := y.attemptId ≤ x.attemptId

instance : DecidableRel attemptIdGe := fun x y =>
  inferInstanceAs (Decidable (y.attemptId ≤ x.attemptId))

instance : IsTotal PuzzleAttempt attemptIdGe := ⟨fun x y => le_total y.attemptId x.attemptId⟩

instance : IsTrans PuzzleAttempt attemptIdGe := ⟨fun _ _ _ h1 h2 => le_trans h2 h1⟩

/-- Sort key of `next_closest_puzzle_attempt`:
`scored.sort(key=lambda t: (-t[0], t[1]))` — score descending, then submission
time ascending. -/
def scoreTsLe (phrase : String × String × String) (x y : PuzzleAttempt) : Prop :=
  attemptScore phrase y < attemptScore phrase x ∨
    (attemptScore phrase x = attemptScore phrase y ∧ x.ts ≤ y.ts)

instance (phrase : String × String × String) : DecidableRel (scoreTsLe phrase) := fun x y =>
  inferInstanceAs (Decidable (attemptScore phrase y < attemptScore phrase x ∨
    (attemptScore phrase x = attemptScore phrase y ∧ x.ts ≤ y.ts)))

instance (phrase : String × String × String) : IsTotal PuzzleAttempt (scoreTsLe phrase) := by
  refine ⟨fun x y => ?_⟩
  rcases lt_trichotomy (attemptScore phrase x) (attemptScore phrase y) with h | h | h
  · exact Or.inr (Or.inl h)
  · rcases le_total x.ts y.ts with h2 | h2
    · exact Or.inl (Or.inr ⟨h, h2⟩)
    · exact Or.inr (Or.inr ⟨h.symm, h2⟩)
  · exact Or.inl (Or.inl h)

instance (phrase : String × String × String) : IsTrans PuzzleAttempt (scoreTsLe phrase) := by
  refine ⟨fun x y z h1 h2 => ?_⟩
  rcases h1 with h1 | ⟨h1, h1t⟩ <;> rcases h2 with h2 | ⟨h2, h2t⟩
  · exact Or.inl (lt_trans h2 h1)
  · exact Or.inl (h2 ▸ h1)
  · exact Or.inl (h1 ▸ h2)
  · exact Or.inr ⟨h1.trans h2, le_trans h1t h2t⟩

/-- The `SELECT ... WHERE checked=0 ORDER BY attempt_id DESC LIMIT 1` of
`check_puzzle` (lines 1497-1502): the most recent unchecked attempt. -/
def latestUnchecked (box : Int) (attempts : List PuzzleAttempt) : Option PuzzleAttempt :=
  match List.insertionSort attemptIdGe
      (attempts.filter (fun x => x.boxId = box ∧ x.checked = false)) with
  | [] => none
  | x :: _ => some x

/-- `next_closest_puzzle_attempt` (lines 784-798): among the unchecked attempts
of the box other than the excluded one, rescore each from its words and return
the first after the stable sort by (score descending, time ascending). -/
def next_closest_puzzle_attempt (box : Int) (phrase : String × String × String)
    (excludeId : Nat) (attempts : List PuzzleAttempt) : Option PuzzleAttempt :=
  match List.insertionSort (scoreTsLe phrase)
      (attempts.filter
        (fun x => x.boxId = box ∧ x.checked = false ∧ x.attemptId ≠ excludeId)) with
  | [] => none
  | x :: _ => some x

/-- `UPDATE puzzle_attempts SET checked=1, score_positions=? WHERE ...
attempt_id=?` (lines 1510-1513). -/
def markChecked (box : Int) (id sc : Nat) (attempts : List PuzzleAttempt) :
    List PuzzleAttempt :=
  attempts.map (fun x =>
    if x.boxId = box ∧ x.attemptId = id then { x with checked := true, score := sc } else x)

/-- The rows touched by the `/wib check_puzzle` transaction. -/
structure PuzzleCheckState where
  box : Int
  phrase : String × String × String
  attempts : List PuzzleAttempt
  slot : SlotState
deriving DecidableEq, Repr

/-- `/wib check_puzzle` (lines 1476-1550): take the most recent unchecked
attempt (none pending → reject without mutation), score it by position matches
and mark it checked; on a full match (3) zero out turns_left and clear the
pending action; otherwise hand the slot to the author of the next closest
remaining attempt, or — when none remains — leave the slot row untouched.
Returns (new state, score, solved, next slot holder). -/
def check_puzzle (st : PuzzleCheckState) :
    Option (PuzzleCheckState × Nat × Bool × Option Int) :=
  match latestUnchecked st.box st.attempts with
  | none => none
  | some a =>
    if compute_puzzle_position_score st.phrase (a.g1, a.g2, a.g3) = 3 then
      some ({ st with
          attempts := markChecked st.box a.attemptId
            (compute_puzzle_position_score st.phrase (a.g1, a.g2, a.g3)) st.attempts,
          slot := { st.slot with turnsLeft := 0, pendingAction := none } },
        compute_puzzle_position_score st.phrase (a.g1, a.g2, a.g3), true, none)
    else
      match next_closest_puzzle_attempt st.box st.phrase a.attemptId
          (markChecked st.box a.attemptId
            (compute_puzzle_position_score st.phrase (a.g1, a.g2, a.g3)) st.attempts) with
      | some nxt =>
        some ({ st with
            attempts := markChecked st.box a.attemptId
              (compute_puzzle_position_score st.phrase (a.g1, a.g2, a.g3)) st.attempts,
            slot := { slotUser := some nxt.user, turnsLeft := 0, pendingAction := none } },
          compute_puzzle_position_score st.phrase (a.g1, a.g2, a.g3), false, some nxt.user)
      | none =>
        some ({ st with
            attempts := markChecked st.box a.attemptId
              (compute_puzzle_position_score st.phrase (a.g1, a.g2, a.g3)) st.attempts },
          compute_puzzle_position_score st.phrase (a.g1, a.g2, a.g3), false, none)

/-- State refuting the final clause of C4: a slot holder is in place, and the
only unchecked attempt scores below 3 with no further attempts pending. -/
def stC4 : PuzzleCheckState :=
  { box := 1, phrase := ("GOLDEN", "TRUE", "SUNRISE"),
    attempts := [{ boxId := 1, attemptId := 1, user := 5, g1 := "A", g2 := "B", g3 := "C",
                   ts := 10, checked := false, score := 0 }],
    slot := { slotUser := some 7, turnsLeft := 2, pendingAction := none } }

/-- State for the C4 witness, the rotation example of the spec: attempt 1 is
already checked; attempts 2 (score 2 at t=5), 3 (score 2 at t=2) and
4 (score 1 at t=9) are pending. -/
def stRot : PuzzleCheckState :=
  { box := 1, phrase := ("GOLDEN", "TRUE", "SUNRISE"),
    attempts :=
      [{ boxId := 1, attemptId := 1, user := 11, g1 := "A", g2 := "B", g3 := "C",
         ts := 1, checked := true, score := 0 },
       { boxId := 1, attemptId := 2, user := 22, g1 := "GOLDEN", g2 := "TRUE", g3 := "C",
         ts := 5, checked := false, score := 0 },
       { boxId := 1, attemptId := 3, user := 33, g1 := "GOLDEN", g2 := "TRUE", g3 := "D",
         ts := 2, checked := false, score := 0 },
       { boxId := 1, attemptId := 4, user := 44, g1 := "GOLDEN", g2 := "X", g3 := "Y",
         ts := 9, checked := false, score := 0 }],
    slot := { slotUser := some 44, turnsLeft := 0, pendingAction := none } }

/-! ### Box opening (/wib open_box, wib_bot.py lines 1588-1664) -/

/-- The columns of the `sessions` row that open_box reads and writes. -/
structure Session where
  isLocked : Bool
  currentBox : Int
  openedBoxesCount : Int
  eliminationsUnlocked : Bool
deriving DecidableEq, Repr

/-- The rows touched by the `/wib open_box` transaction: the session, the
puzzle attempts, the prize per box (title, description) and the per-box
ownership (box, owner). -/
structure OpenBoxState where
  sess : Session
  attempts : List PuzzleAttempt
  prizes : List (Int × String × String)
  ownership : List (Int × Int)
deriving DecidableEq, Repr

/-- `SELECT title, description FROM prizes WHERE ... box_id=?`. -/
def lookupPrize (l : List (Int × String × String)) (box : Int) :
    Option (String × String) :=
  (l.find? (fun p => p.1 = box)).map (fun p => p.2)

/-- The `INSERT ... ON CONFLICT ... DO UPDATE SET owner_user_id` upsert on
`box_ownership` (lines 1627-1632): last write wins per box. -/
def setOwner (l : List (Int × Int)) (box owner : Int) : List (Int × Int) :=
  if l.any (fun p => p.1 = box) then
    l.map (fun p => if p.1 = box then (box, owner) else p)
  else l ++ [(box, owner)]

/-- The current owner of a box. -/
def ownerOf (l : List (Int × Int)) (box : Int) : Option Int :=
  (l.find? (fun p => p.1 = box)).map (fun p => p.2)

/-- `/wib open_box` (lines 1588-1644): rejected without mutation unless a
checked attempt with score 3 exists for the current box (and also rejected,
without mutation, while no prize with a non-blank title is stored — the
handler then only opens the prize form).  On success the author of the most
recent checked score-3 attempt becomes the owner of the box,
opened_boxes_count is incremented, eliminations unlock at a count of 3, and
current_box advances to min(6, box+1). -/
def open_box (st : OpenBoxState) : Option OpenBoxState :=
  if (st.attempts.filter (fun x => x.boxId = st.sess.currentBox ∧
      x.checked = true ∧ x.score = 3)) = [] then none
  else
    match List.insertionSort attemptIdGe
        (st.attempts.filter (fun x => x.boxId = st.sess.currentBox ∧
          x.checked = true ∧ x.score = 3)) with
    | [] => none
    | solver :: _ =>
      match lookupPrize st.prizes st.sess.currentBox with
      | none => none
      | some prize =>
        if pyStrip prize.1 = "" then none
        else
          some { st with
            ownership := setOwner st.ownership st.sess.currentBox solver.user,
            sess := { st.sess with
              openedBoxesCount := st.sess.openedBoxesCount + 1,
              eliminationsUnlocked :=
                if st.sess.openedBoxesCount + 1 ≥ 3 then true
                else st.sess.eliminationsUnlocked,
              currentBox := min 6 (st.sess.currentBox + 1) } }

/-- Demonstration state for the C7 witness: box 2 is solved (a checked score-3
attempt by user 9) and a prize is stored. -/
def stOpen : OpenBoxState :=
  { sess := { isLocked := true, currentBox := 2, openedBoxesCount := 2,
              eliminationsUnlocked := false },
    attempts := [{ boxId := 2, attemptId := 1, user := 9, g1 := "GOLDEN", g2 := "TRUE",
                   g3 := "SUNRISE", ts := 10, checked := true, score := 3 }],
    prizes := [(2, "A prize", "Something shiny")],
    ownership := [(1, 5)] }

/-- The successor state of stOpen under open_box, spelled out. -/
def st2Open : OpenBoxState :=
  { sess := { isLocked := true, currentBox := 3, openedBoxesCount := 3,
              eliminationsUnlocked := true },
    attempts := stOpen.attempts,
    prizes := stOpen.prizes,
    ownership := [(1, 5), (2, 9)] }

/-- Demonstration state for C8: the mega box (6) is solved and carries a
prize; five boxes have been opened before it. -/
def stMega : OpenBoxState :=
  { sess := { isLocked := true, currentBox := 6, openedBoxesCount := 5,
              eliminationsUnlocked := true },
    attempts := [{ boxId := 6, attemptId := 1, user := 9, g1 := "GOLDEN", g2 := "TRUE",
                   g3 := "SUNRISE", ts := 10, checked := true, score := 3 }],
    prizes := [(6, "Mega prize", "The big one")],
    ownership := [] }

/-! ### Puzzle guess submission (PuzzleModal.on_submit lines 450-479,
SubmitPuzzleView.submit_puzzle lines 645-658) and norm_word (lines 44-48) -/

/-- The character class `[A-Z0-9 ]` kept by norm_word. -/
def keepWordChar (c : Char) : Bool :=
  ('A' ≤ c && c ≤ 'Z') || ('0' ≤ c && c ≤ '9') || c = ' '

/-- `re.sub(r"\s+", " ", w)`: every whitespace run becomes one space. -/
def collapseSpacesGo : Bool → List Char → List Char
  | _, [] => []
  | prevSpace, c :: rest =>
    if isSpaceChar c then
      if prevSpace then collapseSpacesGo true rest
      else ' ' :: collapseSpacesGo true rest
    else c :: collapseSpacesGo false rest

/-- `norm_word` (lines 44-48): strip and uppercase, keep only `[A-Z0-9 ]`,
collapse whitespace runs, strip again.  The function is total — it never
rejects an input, it only cleans it. -/
def norm_word (w : String) : String :=
  pyStrip (String.mk (collapseSpacesGo false
    ((pyUpper (pyStrip w)).data.filter keepWordChar)))

/-- `COALESCE(MAX(attempt_id), 0)` over the attempts of one box
(lines 456-460). -/
def maxAttemptId (box : Int) (attempts : List PuzzleAttempt) : Nat :=
  attempts.foldl (fun acc x => if x.boxId = box then max acc x.attemptId else acc) 0

/-- The rows involved in submitting a puzzle guess for the current box. -/
structure PuzzleSubmitState where
  box : Int
  slot : SlotState
  attempts : List PuzzleAttempt
deriving DecidableEq, Repr

/-- The puzzle submission flow: the Submit Puzzle button
(SubmitPuzzleView.submit_puzzle) rejects any user who is not the current slot
holder before opening the modal; the modal handler (PuzzleModal.on_submit)
normalises the three words with norm_word, performs no further validation of
any kind, and appends the attempt with id MAX(attempt_id)+1 for the box. -/
def submit_puzzle_guess (st : PuzzleSubmitState) (userId : Int)
    (raw1 raw2 raw3 : String) (ts : Int) : Option PuzzleSubmitState :=
  match st.slot.slotUser with
  | none => none
  | some holder =>
    if holder ≠ userId then none
    else
      some { st with attempts := st.attempts ++
        [{ boxId := st.box, attemptId := maxAttemptId st.box st.attempts + 1,
           user := userId, g1 := norm_word raw1, g2 := norm_word raw2,
           g3 := norm_word raw3, ts := ts, checked := false, score := 0 }] }

/-- Demonstration state for C9/C10: user 1 holds the slot, no attempts yet. -/
def stSub : PuzzleSubmitState :=
  { box := 1,
    slot := { slotUser := some 1, turnsLeft := 0, pendingAction := none },
    attempts := [] }

/-! ### Seeded content generation (gen_numeric_question lines 229-242,
gen_order_question lines 244-261, gen_phrase_and_deck lines 263-299) -/

/-- A deterministic PRNG in the shape of `random.Random(n)`: a state type,
deterministic seeding, and a deterministic uniform draw below a bound.  The
generators are parametric in the implementation; the seeded CPython Mersenne
Twister is one such pure implementation, and each generator constructs its own
stream from the session seed and box id alone. -/
structure RandomImpl where
  S : Type
  init : Int → S
  randbelow : S → Nat → Nat × S

/-- `rng.randint(lo, hi)`: uniform on the inclusive range. -/
def RandomImpl.randint (R : RandomImpl) (s : R.S) (lo hi : Int) : Int × R.S :=
  match R.randbelow s (hi - lo + 1).toNat with
  | (n, s2) => (lo + (n : Int), s2)

/-- `rng.choice(xs)`: a uniform element of a non-empty list. -/
def RandomImpl.pick (R : RandomImpl) (s : R.S) (xs : List α) (dflt : α) : α × R.S :=
  match R.randbelow s xs.length with
  | (n, s2) => (xs.getD n dflt, s2)

/-- Categorical selection by integer weights, the discrete shape of
`rng.choices(population, weights=...)`. -/
def pickWeighted (pairs : List (α × Nat)) (n : Nat) (dflt : α) : α :=
  match pairs with
  | [] => dflt
  | (a, w) :: rest => if n < w then a else pickWeighted rest (n - w) dflt

/-- `rng.choices(..., weights=...)[0]` drawn through the seeded stream. -/
def RandomImpl.choicesW (R : RandomImpl) (s : R.S) (pairs : List (α × Nat))
    (dflt : α) : α × R.S :=
  match R.randbelow s (pairs.map (fun p => p.2)).sum with
  | (n, s2) => (pickWeighted pairs n dflt, s2)

/-- Exchange two positions of a list. -/
def swapAt (l : List α) (i j : Nat) : List α :=
  match l.get? i, l.get? j with
  | some a, some b => (l.set i b).set j a
  | _, _ => l

/-- `rng.shuffle` (Fisher-Yates as CPython runs it): for i from len-1 down
to 1, draw j below i+1 and swap positions i and j. -/
def RandomImpl.shuffleGo (R : RandomImpl) : Nat → R.S → List α → List α × R.S
  | 0, s, l => (l, s)
  | i + 1, s, l =>
    match R.randbelow s (i + 2) with
    | (j, s2) => R.shuffleGo i s2 (swapAt l (i + 1) j)

/-- `rng.shuffle(deck)`. -/
def RandomImpl.shuffle (R : RandomImpl) (s : R.S) (l : List α) : List α × R.S :=
  R.shuffleGo (l.length - 1) s l

/-- The numeric question templates (lines 212-217), verbatim. -/
def NUMERIC_TEMPLATES : List String := [
  "Box {box}: Using seed {seed}, compute: (seed % 97) + (players * {k}). Answer as an integer.",
  "Box {box}: Take seed {seed}. Compute: (seed % 100) - {k} + (players * 2). Answer as an integer.",
  "Box {box}: Let N be number of registered players ({players}). Compute: (seed % 89) + N + {k}.",
  "Box {box}: Compute: (seed % 73) + ({k} * players) - (box * 3)."]

/-- The ordering prompt templates (lines 219-223), verbatim. -/
def ORDER_TEMPLATES : List String := [
  "Arrange these five deliveries from earliest to latest (1 to 5):",
  "Arrange these five values from smallest to largest (1 to 5):",
  "Arrange these five checkpoints from first to last (1 to 5):"]

/-- Word bank 1 (line 225). -/
def WORD_BANK_1 : List String :=
  ["ONE", "SILVER", "MIDNIGHT", "BRIGHT", "HIDDEN", "GOLDEN", "QUIET", "FIRST",
   "SOFT", "BLUE", "CRISP", "FAIR"]

/-- Word bank 2 (line 226). -/
def WORD_BANK_2 : List String :=
  ["FINE", "STILL", "COLD", "TRUE", "SMALL", "WILD", "GREEN", "DARK", "CLEAR",
   "LAST", "SWEET", "SHARP"]

/-- Word bank 3 (line 227). -/
def WORD_BANK_3 : List String :=
  ["AFTERNOON", "MORNING", "HORIZON", "PROMISE", "WHISPER", "GARDEN", "LANTERN",
   "SUNRISE", "MOONLIGHT", "COMPASS", "VICTORY", "FIRELIGHT"]

/-- Does `pat` begin `s`? -/
def leadsWith : List Char → List Char → Bool
  | [], _ => true
  | _ :: _, [] => false
  | a :: ps, b :: ss => a = b && leadsWith ps ss

/-- Substring search, the Python test `pat in s`. -/
def hasSub (pat : List Char) : List Char → Bool
  | [] => leadsWith pat []
  | c :: rest => leadsWith pat (c :: rest) || hasSub pat rest

/-- `pat in tpl` on strings. -/
def strContains (s pat : String) : Bool := hasSub pat.data s.data

/-- Replace every occurrence of `pat` by `rep`, fuelled by the input length
(enough fuel for a non-empty pattern, which is the only use here). -/
def replaceGo (pat rep : List Char) : Nat → List Char → List Char
  | 0, s => s
  | _ + 1, [] => []
  | fuel + 1, c :: rest =>
    if leadsWith pat (c :: rest) && !pat.isEmpty then
      rep ++ replaceGo pat rep fuel ((c :: rest).drop pat.length)
    else c :: replaceGo pat rep fuel rest

/-- String replacement, as `str.format` substitutes one named field. -/
def strReplace (s pat rep : String) : String :=
  String.mk (replaceGo pat.data rep.data s.data.length s.data)

/-- `tpl.format(seed=..., box=..., players=..., k=...)` for the numeric
templates. -/
def formatNumericTpl (tpl : String) (seed box players k : Int) : String :=
  strReplace (strReplace (strReplace (strReplace tpl "{seed}" (toString seed))
    "{box}" (toString box)) "{players}" (toString players)) "{k}" (toString k)

/-- `gen_numeric_question` (lines 229-242): stream seeded with
seed*100 + box*7 + players; pick a template, draw k in [3,11], compute the
answer by the arithmetic of the template (recognised by substring, as the source
does) and render the question.  The Python `%` on a positive modulus agrees
with Int.emod here. -/
def gen_numeric_question (R : RandomImpl) (seed boxId playerCount : Int) :
    String × Int :=
  match R.pick (R.init (seed * 100 + boxId * 7 + playerCount)) NUMERIC_TEMPLATES "" with
  | (tpl, s1) =>
    match R.randint s1 3 11 with
    | (k, _) =>
      (formatNumericTpl tpl seed boxId playerCount k,
        if strContains tpl "seed % 97" then (seed % 97) + (playerCount * k)
        else if strContains tpl "seed % 100" then (seed % 100) - k + (playerCount * 2)
        else if strContains tpl "seed % 89" then (seed % 89) + playerCount + k
        else (seed % 73) + (k * playerCount) - (boxId * 3))

/-- The `while v in values` redraw loop of gen_order_question, bounded by
fuel (the source retries without bound; with fuel spent the last draw is kept,
which never triggers for the draws the game performs). -/
def drawDistinct (R : RandomImpl) : Nat → R.S → List Int → Int × R.S
  | 0, s, _ => R.randint s 10 99
  | fuel + 1, s, values =>
    match R.randint s 10 99 with
    | (v, s2) => if v ∈ values then drawDistinct R fuel s2 values else (v, s2)

/-- `f"{chr(65+i)}: Item {i+1} ({v})"` (line 254). -/
def itemLabel (i : Nat) (v : Int) : String :=
  String.mk [Char.ofNat (65 + i)] ++ ": Item " ++ toString (i + 1) ++ " (" ++
    toString v ++ ")"

/-- The five-iteration loop of gen_order_question collecting items and
distinct values. -/
def orderItemsGo (R : RandomImpl) : Nat → R.S → List String → List Int →
    List String × List Int × R.S
  | 0, s, items, values => (items, values, s)
  | n + 1, s, items, values =>
    match drawDistinct R 1000 s values with
    | (v, s2) => orderItemsGo R n s2 (items ++ [itemLabel items.length v]) (values ++ [v])

/-- `sorted(enumerate(values), key=lambda x: x[1])`. -/
def sndLe (x y : Nat × Int) : Prop := x.2 ≤ y.2

instance : DecidableRel sndLe := fun x y => inferInstanceAs (Decidable (x.2 ≤ y.2))

/-- `gen_order_question` (lines 244-261): stream seeded with
seed*200 + box*19; pick a template, draw five distinct values in [10,99],
label them A-E, and always answer with the ascending-value permutation (the
source tests the template wording but both branches sort identically). -/
def gen_order_question (R : RandomImpl) (seed boxId : Int) :
    String × List String × List Nat :=
  match R.pick (R.init (seed * 200 + boxId * 19)) ORDER_TEMPLATES "" with
  | (mode, s1) =>
    match orderItemsGo R 5 s1 [] [] with
    | (items, values, _) =>
      ("Box " ++ toString boxId ++ ": " ++ mode ++ "\n" ++
          String.intercalate "\n" items ++ "\n\nSubmit with: /wib order A B C D E",
        items,
        (if strContains mode "earliest" || strContains mode "first to last" then
            List.insertionSort sndLe values.enum
          else
            List.insertionSort sndLe values.enum).map (fun p => p.1))

/-- The tagged card drawn for a non-PIECE category string. -/
def strToCard (t : String) : Card :=
  if t = "PASS" then Card.pass
  else if t = "STEAL" then Card.steal
  else if t = "DONATE" then Card.donate
  else if t = "WILDCARD" then Card.wildcard
  else Card.piece ""

/-- The seven weighted draws appending to the deck (lines 275-296): a PIECE
additionally draws which word it reveals. -/
def deckDrawGo (R : RandomImpl) (pairs : List (String × Nat)) :
    Nat → R.S → List Card → List Card × R.S
  | 0, s, deck => (deck, s)
  | n + 1, s, deck =>
    match R.choicesW s pairs "PIECE" with
    | (t, s2) =>
      if t = "PIECE" then
        match R.pick s2 ["W1", "W2", "W3"] "W1" with
        | (rv, s3) => deckDrawGo R pairs n s3 (deck ++ [Card.piece rv])
      else deckDrawGo R pairs n s2 (deck ++ [strToCard t])

/-- `gen_phrase_and_deck` (lines 263-299): stream seeded with
seed*300 + box*31; one word from each bank forms the phrase; three guaranteed
PIECE cards plus seven weighted draws (weights by box tier) form the deck,
which is then shuffled with the same stream. -/
def gen_phrase_and_deck (R : RandomImpl) (seed boxId : Int) :
    (String × String × String) × List Card :=
  match R.pick (R.init (seed * 300 + boxId * 31)) WORD_BANK_1 "" with
  | (w1, s1) =>
  match R.pick s1 WORD_BANK_2 "" with
  | (w2, s2) =>
  match R.pick s2 WORD_BANK_3 "" with
  | (w3, s3) =>
  match (if boxId = 1 then
      deckDrawGo R [("PIECE", 7), ("PASS", 3)] 7 s3
        [Card.piece "W1", Card.piece "W2", Card.piece "W3"]
    else if 2 ≤ boxId ∧ boxId ≤ 5 then
      deckDrawGo R [("PIECE", 6), ("PASS", 2), ("STEAL", 2)] 7 s3
        [Card.piece "W1", Card.piece "W2", Card.piece "W3"]
    else
      deckDrawGo R [("PIECE", 5), ("PASS", 2), ("STEAL", 2), ("DONATE", 2),
        ("WILDCARD", 1)] 7 s3
        [Card.piece "W1", Card.piece "W2", Card.piece "W3"]) with
  | (deck1, s4) =>
    match R.shuffle s4 deck1 with
    | (deck2, _) => ((w1, w2, w3), deck2)

end WIB

namespace WIB

/-! ### Generic fact about taking the head of a stably sorted list -/

theorem head_insertionSort_min {α : Type} (r : α → α → Prop) [DecidableRel r]
    [IsTotal α r] [IsTrans α r] (l : List α) (a : α) (t : List α)
    (h : List.insertionSort r l = a :: t) : a ∈ l ∧ ∀ b ∈ l, r a b := by
  have hperm := List.perm_insertionSort r l
  have hsorted := List.sorted_insertionSort r l
  rw [h] at hperm hsorted
  constructor
  · exact hperm.mem_iff.mp (List.mem_cons_self a t)
  · intro b hb
    have hb2 : b ∈ a :: t := hperm.mem_iff.mpr hb
    rcases List.mem_cons.mp hb2 with hba | hbt
    · subst hba
      exact (total_of r b b).elim id id
    · exact List.rel_of_sorted_cons hsorted b hbt

/-- C1: trivia resolution.  With no submissions the outcome is `none` and the
slot upsert leaves the slot holder unassigned (NULL).  If some submission is
exactly correct, the winner is an exact match whose timestamp is minimal among
exact matches (flag `true`).  Otherwise the winner minimises (absolute
difference, timestamp) lexicographically over all submissions (flag `false`).
The assigned slot holder is exactly the returned winner. -/
theorem trivia_resolution (correct : Int) (subs : List TriviaSub) :
    (subs = [] → compute_trivia_outcome correct subs = none)
    ∧ ((∃ s ∈ subs, s.value = correct) →
        ∃ s ∈ subs, s.value = correct ∧
          compute_trivia_outcome correct subs = some (s.user, s.value, true) ∧
          ∀ u ∈ subs, u.value = correct → s.ts ≤ u.ts)
    ∧ (subs ≠ [] → (¬ ∃ s ∈ subs, s.value = correct) →
        ∃ s ∈ subs,
          compute_trivia_outcome correct subs = some (s.user, s.value, false) ∧
          ∀ u ∈ subs, diffTsLe correct s u)
    ∧ (revealSlotState (compute_trivia_outcome correct subs)).slotUser
        = (compute_trivia_outcome correct subs).map (fun w => w.1) := by
  refine ⟨?_, ?_, ?_, rfl⟩
  · intro h
    simp [compute_trivia_outcome, h]
  · intro hex
    obtain ⟨s0, hs0, hs0v⟩ := hex
    have hne : subs ≠ [] := by
      intro h; subst h; exact absurd hs0 (List.not_mem_nil s0)
    have hexne : subs.filter (fun r => r.value = correct) ≠ [] := by
      intro h
      have : s0 ∈ subs.filter (fun r => r.value = correct) := by
        rw [List.mem_filter]
        exact ⟨hs0, by simpa using hs0v⟩
      rw [h] at this
      exact absurd this (List.not_mem_nil s0)
    rcases hsort : List.insertionSort tsLe (subs.filter (fun r => r.value = correct)) with
      _ | ⟨a, t⟩
    · exfalso
      have := List.perm_insertionSort tsLe (subs.filter (fun r => r.value = correct))
      rw [hsort] at this
      exact hexne this.symm.eq_nil
    · obtain ⟨hmem, hmin⟩ := head_insertionSort_min tsLe _ a t hsort
      rw [List.mem_filter] at hmem
      refine ⟨a, hmem.1, by simpa using hmem.2, ?_, ?_⟩
      · unfold compute_trivia_outcome
        rw [if_neg hne, if_neg hexne, hsort]
      · intro u hu huv
        have : u ∈ subs.filter (fun r => r.value = correct) := by
          rw [List.mem_filter]; exact ⟨hu, by simpa using huv⟩
        exact hmin u this
  · intro hne hnoex
    have hexnil : subs.filter (fun r => r.value = correct) = [] := by
      rcases hfil : subs.filter (fun r => r.value = correct) with _ | ⟨a, t⟩
      · exact hfil
      · exfalso
        have : a ∈ subs.filter (fun r => r.value = correct) := by
          rw [hfil]; exact List.mem_cons_self a t
        rw [List.mem_filter] at this
        exact hnoex ⟨a, this.1, by simpa using this.2⟩
    rcases hsort : List.insertionSort (diffTsLe correct) subs with _ | ⟨a, t⟩
    · exfalso
      have := List.perm_insertionSort (diffTsLe correct) subs
      rw [hsort] at this
      exact hne this.symm.eq_nil
    · obtain ⟨hmem, hmin⟩ := head_insertionSort_min (diffTsLe correct) _ a t hsort
      refine ⟨a, hmem, ?_, hmin⟩
      unfold compute_trivia_outcome
      rw [if_neg hne, if_pos hexnil, hsort]

/-- Witness for C1, at the worked example of the spec: submissions
A = 50 at t=1 and B = 48 at t=0 with correct answer 50 resolve to A
(the exact match wins though B was earlier). -/
theorem trivia_resolution_witness :
    ∃ s ∈ [TriviaSub.mk 1 50 1, TriviaSub.mk 2 48 0], s.value = 50 ∧
      compute_trivia_outcome 50 [TriviaSub.mk 1 50 1, TriviaSub.mk 2 48 0]
        = some (s.user, s.value, true) ∧
      ∀ u ∈ [TriviaSub.mk 1 50 1, TriviaSub.mk 2 48 0], u.value = 50 → s.ts ≤ u.ts :=
  (trivia_resolution 50 [TriviaSub.mk 1 50 1, TriviaSub.mk 2 48 0]).2.1
    ⟨TriviaSub.mk 1 50 1, by decide, by decide⟩

/-! ### Card reveal gating (C2) -/

theorem revealAccept_isSome (st : BoxState) (u : Int) (idx : Nat) :
    (revealAccept st u idx).isSome ↔
      (st.slot.slotUser = some u ∧ 0 < st.slot.turnsLeft ∧
        pendingTruthy st.slot.pendingAction = false ∧ idx ∉ st.revealed ∧
        idx < st.deck.length) := by
  unfold revealAccept
  rcases hsl : st.slot.slotUser with _ | holder
  · simp
  · split_ifs with h1 h2 h3 h4 <;> simp_all

theorem revealAccept_some (st : BoxState) (u : Int) (idx : Nat) (st1 : BoxState)
    (h : revealAccept st u idx = some st1) :
    st1.revealed = revealedInsert idx st.revealed ∧
      st1.slot.turnsLeft = st.slot.turnsLeft - 1 ∧
      0 < st.slot.turnsLeft ∧
      st1.deck = st.deck ∧
      st1.slot.slotUser = st.slot.slotUser ∧
      st1.slot.pendingAction = st.slot.pendingAction := by
  unfold revealAccept at h
  rcases hsl : st.slot.slotUser with _ | holder <;> rw [hsl] at h <;> dsimp only at h
  · exact absurd h (by simp)
  · by_cases h1 : holder ≠ u
    · rw [if_pos h1] at h; exact absurd h (by simp)
    rw [if_neg h1] at h
    by_cases h2 : st.slot.turnsLeft ≤ 0
    · rw [if_pos h2] at h; exact absurd h (by simp)
    rw [if_neg h2] at h
    by_cases h3 : pendingTruthy st.slot.pendingAction
    · rw [if_pos h3] at h; exact absurd h (by simp)
    rw [if_neg h3] at h
    by_cases h4 : idx ∈ st.revealed
    · rw [if_pos h4] at h; exact absurd h (by simp)
    rw [if_neg h4] at h
    by_cases h5 : idx < st.deck.length
    · rw [if_pos h5] at h
      cases h
      exact ⟨rfl, rfl, by omega, rfl, hsl, rfl⟩
    · rw [if_neg h5] at h; exact absurd h (by simp)

theorem applyCard_keeps (boxId : Int) (c : Card) (g : Nat) (st : BoxState) :
    ((applyCard boxId c g st).slot.turnsLeft = st.slot.turnsLeft ∨
      (applyCard boxId c g st).slot.turnsLeft = min 5 (st.slot.turnsLeft + 1)) ∧
      (applyCard boxId c g st).slot.slotUser = st.slot.slotUser ∧
      (applyCard boxId c g st).revealed = st.revealed ∧
      (applyCard boxId c g st).deck = st.deck := by
  cases c with
  | piece r => exact ⟨Or.inl rfl, rfl, rfl, rfl⟩
  | pass => exact ⟨Or.inl rfl, rfl, rfl, rfl⟩
  | steal => exact ⟨Or.inl rfl, rfl, rfl, rfl⟩
  | donate => exact ⟨Or.inl rfl, rfl, rfl, rfl⟩
  | wildcard =>
    by_cases h : wildcardChosen boxId g = "BONUS_TURN"
    · refine ⟨Or.inr ?_, ?_, ?_, ?_⟩ <;> simp [applyCard, h]
    · refine ⟨Or.inl ?_, ?_, ?_, ?_⟩ <;> simp [applyCard, h]

theorem cardReveal_nonneg (boxId : Int) (st : BoxState) (u : Int) (idx : Nat)
    (g : Nat) (st2 : BoxState) (h : cardReveal boxId st u idx g = some st2) :
    0 ≤ st2.slot.turnsLeft := by
  unfold cardReveal at h
  rcases hacc : revealAccept st u idx with _ | st1 <;> rw [hacc] at h
  · exact absurd h (by simp)
  · have hfx : applyCard boxId (st1.deck.getD idx Card.pass) g st1 = st2 :=
      Option.some.inj h
    obtain ⟨-, ht, hpos, -, -, -⟩ := revealAccept_some st u idx st1 hacc
    obtain ⟨hturn, -, -, -⟩ := applyCard_keeps boxId (st1.deck.getD idx Card.pass) g st1
    rw [← hfx]
    rcases hturn with h2 | h2 <;> rw [h2] <;> omega

theorem revealSeq_nonneg (boxId : Int) (st : BoxState) (ops : List (Int × Nat × Nat))
    (h0 : 0 ≤ st.slot.turnsLeft) : 0 ≤ (revealSeq boxId st ops).slot.turnsLeft := by
  induction ops generalizing st with
  | nil => exact h0
  | cons op rest ih =>
    show 0 ≤ (revealSeq boxId ((cardReveal boxId st op.1 op.2.1 op.2.2).getD st) rest).slot.turnsLeft
    apply ih
    rcases hrv : cardReveal boxId st op.1 op.2.1 op.2.2 with _ | st2
    · simpa using h0
    · simpa using cardReveal_nonneg boxId st op.1 op.2.1 op.2.2 st2 hrv

/-- C2: a card reveal is accepted exactly when the acting user is the current
slot holder, turns_left is positive, no pending action is set and the index is
unrevealed (and in range); a rejected reveal produces no new state (the
transaction returns before any write); the accepting step adds the index to
the revealed set and decrements turns_left by exactly one; and over any
sequence of reveal operations (card effects included) turns_left never becomes
negative. -/
theorem card_reveal_gating (boxId : Int) (st : BoxState) (u : Int) (idx : Nat)
    (g : Nat) (ops : List (Int × Nat × Nat)) :
    ((cardReveal boxId st u idx g).isSome ↔
      (st.slot.slotUser = some u ∧ 0 < st.slot.turnsLeft ∧
        pendingTruthy st.slot.pendingAction = false ∧ idx ∉ st.revealed ∧
        idx < st.deck.length))
    ∧ (∀ st1, revealAccept st u idx = some st1 →
        (∀ j, j ∈ st1.revealed ↔ (j = idx ∨ j ∈ st.revealed)) ∧
          st1.slot.turnsLeft = st.slot.turnsLeft - 1 ∧
          st1.deck = st.deck ∧ st1.slot.slotUser = st.slot.slotUser)
    ∧ (0 ≤ st.slot.turnsLeft → 0 ≤ (revealSeq boxId st ops).slot.turnsLeft) := by
  refine ⟨?_, ?_, revealSeq_nonneg boxId st ops⟩
  · rw [← revealAccept_isSome st u idx]
    unfold cardReveal
    rcases revealAccept st u idx with _ | st1 <;> simp
  · intro st1 h
    obtain ⟨hrev, ht, -, hdeck, hslot, -⟩ := revealAccept_some st u idx st1 h
    refine ⟨?_, ht, hdeck, hslot⟩
    intro j
    rw [hrev]
    unfold revealedInsert
    rw [List.mem_insertionSort, List.mem_cons]

/-- Witness for C2 at a concrete state: the reveal of card 0 by the slot
holder is accepted, and a run of reveal operations keeps turns_left
non-negative. -/
theorem card_reveal_gating_witness :
    (cardReveal 1 stDemo 1 0 0).isSome ∧
      0 ≤ (revealSeq 1 stDemo [(1, 0, 0), (1, 1, 0), (1, 1, 0)]).slot.turnsLeft := by
  constructor
  · exact (card_reveal_gating 1 stDemo 1 0 0 []).1.mpr (by decide)
  · exact (card_reveal_gating 1 stDemo 1 0 0 [(1, 0, 0), (1, 1, 0), (1, 1, 0)]).2.2 (by decide)

/-! ### WILDCARD resolution draws from the global generator (C6) -/

/-- C6: the WILDCARD outcome always lies in the claimed pools — PASS / STEAL /
BONUS_TURN for boxes 1-5 and additionally DONATE for box 6 — but the outcome is
a function of the process-wide generator draw `g` (random.choice at line 599),
not of the session state alone: the same state stWild yields two different
successor states for two different global draws, refuting determinism of the
effect on a fixed state. -/
theorem wildcard_global_rng_dependence :
    (∀ g : Nat, wildcardChosen 1 g ∈ ["PASS", "STEAL", "BONUS_TURN"])
    ∧ (∀ g : Nat, wildcardChosen 6 g ∈ ["PASS", "STEAL", "BONUS_TURN", "DONATE"])
    ∧ cardReveal 6 stWild 1 0 0 ≠ cardReveal 6 stWild 1 0 2 := by
  refine ⟨?_, ?_, by decide⟩
  · intro g
    have h : g % 3 < 3 := Nat.mod_lt g (by decide)
    unfold wildcardChosen wildcardEffects
    have h3 : g % 3 = 0 ∨ g % 3 = 1 ∨ g % 3 = 2 := by omega
    simp only [if_neg (by decide : ¬ ((1 : Int) = 6))]
    rcases h3 with h0 | h0 | h0 <;> simp [h0]
  · intro g
    have h : g % 4 < 4 := Nat.mod_lt g (by decide)
    unfold wildcardChosen wildcardEffects
    have h4 : g % 4 = 0 ∨ g % 4 = 1 ∨ g % 4 = 2 ∨ g % 4 = 3 := by omega
    simp only [if_pos (rfl : (6 : Int) = 6)]
    rcases h4 with h0 | h0 | h0 | h0 <;> simp [h0]

/-! ### The Python string order is a total preorder -/

theorem lexLeChars_total : ∀ s t : List Char, lexLeChars s t = true ∨ lexLeChars t s = true
  | [], _ => Or.inl rfl
  | _ :: _, [] => Or.inr rfl
  | a :: s, b :: t => by
    unfold lexLeChars
    rcases lt_trichotomy a b with h | h | h
    · left; rw [if_pos h]
    · subst h
      rcases lexLeChars_total s t with h2 | h2 <;>
        [left; right] <;> rw [if_neg (lt_irrefl a), if_pos rfl] <;> exact h2
    · right; rw [if_pos h]

theorem lexLeChars_trans : ∀ s t u : List Char,
    lexLeChars s t = true → lexLeChars t u = true → lexLeChars s u = true
  | [], _, _, _, _ => rfl
  | _ :: _, [], _, h, _ => by simp [lexLeChars] at h
  | _ :: _, _ :: _, [], _, h2 => by simp [lexLeChars] at h2
  | a :: s, b :: t, c :: u, h1, h2 => by
    unfold lexLeChars at h1 h2 ⊢
    by_cases hab : a < b
    · rw [if_pos hab] at h1
      by_cases hbc : b < c
      · rw [if_pos (lt_trans hab hbc)]
      · rw [if_neg hbc] at h2
        by_cases hbc2 : b = c
        · subst hbc2; rw [if_pos hab]
        · rw [if_neg hbc2] at h2; exact absurd h2 (by simp)
    · rw [if_neg hab] at h1
      by_cases hab2 : a = b
      · rw [if_pos hab2] at h1
        subst hab2
        by_cases hac : a < c
        · rw [if_pos hac]
        · rw [if_neg hac] at h2 ⊢
          by_cases hac2 : a = c
          · rw [if_pos hac2] at h2 ⊢
            exact lexLeChars_trans s t u h1 h2
          · rw [if_neg hac2] at h2; exact absurd h2 (by simp)
      · rw [if_neg hab2] at h1; exact absurd h1 (by simp)

theorem lexLeChars_antisymm : ∀ s t : List Char,
    lexLeChars s t = true → lexLeChars t s = true → s = t
  | [], [], _, _ => rfl
  | [], _ :: _, _, h2 => by simp [lexLeChars] at h2
  | _ :: _, [], h1, _ => by simp [lexLeChars] at h1
  | a :: s, b :: t, h1, h2 => by
    unfold lexLeChars at h1 h2
    by_cases hab : a < b
    · rw [if_neg (lt_asymm hab), if_neg (ne_of_gt hab)] at h2
      exact absurd h2 (by simp)
    · by_cases hab2 : a = b
      · subst hab2
        rw [if_neg hab, if_pos rfl] at h1
        rw [if_neg hab, if_pos rfl] at h2
        rw [lexLeChars_antisymm s t h1 h2]
      · rw [if_neg hab, if_neg hab2] at h1; exact absurd h1 (by simp)

instance : IsTotal String pyStrLe := ⟨fun s t => lexLeChars_total s.data t.data⟩

instance : IsTrans String pyStrLe := ⟨fun s t u => lexLeChars_trans s.data t.data u.data⟩

instance : IsAntisymm String pyStrLe :=
  ⟨fun s t h1 h2 => by
    cases s; cases t
    exact congrArg String.mk (lexLeChars_antisymm _ _ h1 h2)⟩

/-! ### Ordering submission (C3) -/

/-- C3: the ordering validation accepts exactly the permutations of the label
set {A,B,C,D,E} (an order-independent check on the normalised letters); a
non-permutation is rejected with no new state; an accepted submission requires
a locked session, an active round and the bound slot holder, and produces the
position-match score, deactivates the round, stores the score (0 included) as
the turns_left of the slot holder and clears any stale pending action. -/
theorem order_submission (locked : Bool) (r : OrderRound) (slot : SlotState)
    (userId : Int) (a b c d e : String) :
    (isPermutationABCDE ([a, b, c, d, e].map normLetter) ↔
      ([a, b, c, d, e].map normLetter).Perm ["A", "B", "C", "D", "E"])
    ∧ (¬ isPermutationABCDE ([a, b, c, d, e].map normLetter) →
        submitOrder locked (some r) slot userId a b c d e = none)
    ∧ (∀ res, submitOrder locked (some r) slot userId a b c d e = some res →
        locked = true ∧ r.isActive = true ∧ userId = r.slotUser ∧
        res.1 = orderScore ([a, b, c, d, e].map normLetter) r.correct ∧
        res.2.1 = { r with isActive := false } ∧
        res.2.2.slotUser = slot.slotUser ∧
        res.2.2.turnsLeft = (res.1 : Int) ∧
        res.2.2.pendingAction = none) := by
  refine ⟨?_, ?_, ?_⟩
  · constructor
    · intro h
      have hp := List.perm_insertionSort pyStrLe ([a, b, c, d, e].map normLetter)
      rw [h] at hp
      exact hp.symm
    · intro h
      have hp := (List.perm_insertionSort pyStrLe ([a, b, c, d, e].map normLetter)).trans h
      have habc : List.insertionSort pyStrLe ["A", "B", "C", "D", "E"]
          = ["A", "B", "C", "D", "E"] := by decide
      have hsorted : List.Sorted pyStrLe ["A", "B", "C", "D", "E"] :=
        habc ▸ List.sorted_insertionSort pyStrLe ["A", "B", "C", "D", "E"]
      exact List.eq_of_perm_of_sorted hp (List.sorted_insertionSort pyStrLe _) hsorted
  · intro h
    unfold submitOrder
    rw [if_pos h]
  · intro res h
    unfold submitOrder at h
    by_cases hperm : isPermutationABCDE ([a, b, c, d, e].map normLetter)
    · rw [if_neg (not_not_intro hperm)] at h
      by_cases hl : locked = false
      · rw [if_pos hl] at h; exact absurd h (by simp)
      rw [if_neg hl] at h
      dsimp only at h
      by_cases hact : r.isActive = false
      · rw [if_pos hact] at h; exact absurd h (by simp)
      rw [if_neg hact] at h
      by_cases hu : userId ≠ r.slotUser
      · rw [if_pos hu] at h; exact absurd h (by simp)
      rw [if_neg hu] at h
      cases h
      exact ⟨by simpa using hl, by simpa using hact, not_not.mp hu, rfl, rfl, rfl, rfl, rfl⟩
    · rw [if_pos hperm] at h
      exact absurd h (by simp)

/-- Witness for C3 at the ordering example of the spec: the correct permutation is
[2,0,4,1,3]; the slot holder submits A B C D E (with stray spacing and case on
the first letter, exercising normalisation), which matches no position, so the
round resolves with zero turns and the stale pending action cleared. -/
theorem order_submission_witness :
    ∃ res, submitOrder true (some rDemo) slotDemo 1 " a " "B" "C" "D" "E" = some res ∧
      res.2.2.turnsLeft = (res.1 : Int) ∧ res.2.2.pendingAction = none ∧
      res.2.2.turnsLeft = 0 := by
  have hs : submitOrder true (some rDemo) slotDemo 1 " a " "B" "C" "D" "E"
      = some (0, { rDemo with isActive := false },
          { slotDemo with turnsLeft := 0, pendingAction := none }) := by decide
  have h := (order_submission true rDemo slotDemo 1 " a " "B" "C" "D" "E").2.2 _ hs
  exact ⟨_, hs, h.2.2.2.2.2.2.1, h.2.2.2.2.2.2.2, rfl⟩

/-! ### Host puzzle checking (C4) -/

theorem compute_puzzle_position_score_le_three (c g : String × String × String) :
    compute_puzzle_position_score c g ≤ 3 := by
  unfold compute_puzzle_position_score
  split_ifs <;> omega

theorem mem_markChecked_pool (box : Int) (id sc : Nat) (attempts : List PuzzleAttempt)
    (x : PuzzleAttempt) :
    x ∈ (markChecked box id sc attempts).filter
        (fun y => y.boxId = box ∧ y.checked = false ∧ y.attemptId ≠ id) ↔
      x ∈ attempts.filter
        (fun y => y.boxId = box ∧ y.checked = false ∧ y.attemptId ≠ id) := by
  unfold markChecked
  rw [List.mem_filter, List.mem_filter, List.mem_map]
  constructor
  · rintro ⟨⟨y, hy, hfy⟩, hx⟩
    have hx2 : x.boxId = box ∧ x.checked = false ∧ x.attemptId ≠ id := by simpa using hx
    by_cases hc : y.boxId = box ∧ y.attemptId = id
    · rw [if_pos hc] at hfy
      exfalso
      have h2 : x.checked = false := hx2.2.1
      rw [← hfy] at h2
      exact absurd h2 (by simp)
    · rw [if_neg hc] at hfy
      exact ⟨hfy ▸ hy, hx⟩
  · rintro ⟨hy, hx⟩
    have hx2 : x.boxId = box ∧ x.checked = false ∧ x.attemptId ≠ id := by simpa using hx
    refine ⟨⟨x, hy, ?_⟩, hx⟩
    have hne : ¬ (x.boxId = box ∧ x.attemptId = id) := by
      rintro ⟨-, h2⟩
      exact hx2.2.2 h2
    rw [if_neg hne]

/-- C4 (amended in its final clause): checking takes the most recent unchecked
attempt of the current box, scores it by position matches (0-3), and marks it
checked; a score of 3 zeroes the turns_left of the slot and clears its pending
action; a lower score hands the slot to the author of the best remaining
unchecked attempt (score descending, then earliest submission), and when no
attempt remains the slot row is left unchanged — the incumbent slot holder is
retained, not removed. -/
theorem check_puzzle_behavior (st : PuzzleCheckState) :
    (latestUnchecked st.box st.attempts = none → check_puzzle st = none)
    ∧ (∀ a, latestUnchecked st.box st.attempts = some a →
        (a ∈ st.attempts ∧ a.boxId = st.box ∧ a.checked = false ∧
          ∀ b ∈ st.attempts, b.boxId = st.box → b.checked = false →
            b.attemptId ≤ a.attemptId)
        ∧ ∃ res, check_puzzle st = some res ∧
            res.2.1 = compute_puzzle_position_score st.phrase (a.g1, a.g2, a.g3) ∧
            res.2.1 ≤ 3 ∧
            res.1.attempts = markChecked st.box a.attemptId res.2.1 st.attempts ∧
            (res.2.1 = 3 →
              res.1.slot.turnsLeft = 0 ∧ res.1.slot.pendingAction = none ∧
                res.1.slot.slotUser = st.slot.slotUser ∧ res.2.2.1 = true) ∧
            (res.2.1 ≠ 3 → res.2.2.1 = false ∧
              (∀ u, res.2.2.2 = some u →
                res.1.slot =
                  { slotUser := some u, turnsLeft := 0, pendingAction := none } ∧
                ∃ n ∈ st.attempts, n.user = u ∧ n.boxId = st.box ∧ n.checked = false ∧
                  n.attemptId ≠ a.attemptId ∧
                  ∀ m ∈ st.attempts, m.boxId = st.box → m.checked = false →
                    m.attemptId ≠ a.attemptId → scoreTsLe st.phrase n m) ∧
              (res.2.2.2 = none → res.1.slot = st.slot))) := by
  constructor
  · intro h
    unfold check_puzzle
    rw [h]
  · intro a hlat
    constructor
    · unfold latestUnchecked at hlat
      rcases hsort : List.insertionSort attemptIdGe
          (st.attempts.filter (fun x => x.boxId = st.box ∧ x.checked = false)) with
        _ | ⟨x, t⟩ <;> rw [hsort] at hlat
      · exact absurd hlat (by simp)
      · have hx := Option.some.inj hlat
        rw [hx] at hsort
        obtain ⟨hmem, hmin⟩ := head_insertionSort_min attemptIdGe _ a t hsort
        rw [List.mem_filter] at hmem
        have hprops : a.boxId = st.box ∧ a.checked = false := by simpa using hmem.2
        refine ⟨hmem.1, hprops.1, hprops.2, ?_⟩
        intro b hb hbox hchk
        have : b ∈ st.attempts.filter (fun x => x.boxId = st.box ∧ x.checked = false) := by
          rw [List.mem_filter]
          exact ⟨hb, by simp [hbox, hchk]⟩
        exact hmin b this
    · unfold check_puzzle
      rw [hlat]
      dsimp only
      by_cases hsc : compute_puzzle_position_score st.phrase (a.g1, a.g2, a.g3) = 3
      · rw [if_pos hsc]
        refine ⟨_, rfl, rfl, compute_puzzle_position_score_le_three _ _, rfl,
          fun _ => ⟨rfl, rfl, rfl, rfl⟩, fun hne => absurd hsc hne⟩
      · rw [if_neg hsc]
        rcases hnext : next_closest_puzzle_attempt st.box st.phrase a.attemptId
            (markChecked st.box a.attemptId
              (compute_puzzle_position_score st.phrase (a.g1, a.g2, a.g3)) st.attempts) with
          _ | nxt
        · refine ⟨_, rfl, rfl, compute_puzzle_position_score_le_three _ _, rfl,
            fun h3 => absurd h3 hsc, fun _ => ⟨rfl, ?_, fun _ => rfl⟩⟩
          intro u hu
          exact absurd hu (by simp)
        · refine ⟨_, rfl, rfl, compute_puzzle_position_score_le_three _ _, rfl,
            fun h3 => absurd h3 hsc, fun _ => ⟨rfl, ?_, fun hcon => absurd hcon (by simp)⟩⟩
          intro u hu
          have hu2 := Option.some.inj hu
          subst hu2
          refine ⟨rfl, ?_⟩
          unfold next_closest_puzzle_attempt at hnext
          rcases hsort2 : List.insertionSort (scoreTsLe st.phrase)
              ((markChecked st.box a.attemptId
                (compute_puzzle_position_score st.phrase (a.g1, a.g2, a.g3))
                st.attempts).filter
                (fun x => x.boxId = st.box ∧ x.checked = false ∧
                  x.attemptId ≠ a.attemptId)) with
            _ | ⟨x2, t2⟩ <;> rw [hsort2] at hnext
          · exact absurd hnext (by simp)
          · have hx2 := Option.some.inj hnext
            rw [hx2] at hsort2
            obtain ⟨hmem2, hmin2⟩ := head_insertionSort_min (scoreTsLe st.phrase) _ nxt t2 hsort2
            rw [mem_markChecked_pool, List.mem_filter] at hmem2
            have hprops2 : nxt.boxId = st.box ∧ nxt.checked = false ∧
                nxt.attemptId ≠ a.attemptId := by simpa using hmem2.2
            refine ⟨nxt, hmem2.1, rfl, hprops2.1, hprops2.2.1, hprops2.2.2, ?_⟩
            intro m hm hmbox hmchk hmid
            have : m ∈ (markChecked st.box a.attemptId
                (compute_puzzle_position_score st.phrase (a.g1, a.g2, a.g3))
                st.attempts).filter
                (fun x => x.boxId = st.box ∧ x.checked = false ∧
                  x.attemptId ≠ a.attemptId) := by
              rw [mem_markChecked_pool, List.mem_filter]
              exact ⟨hm, by simp [hmbox, hmchk, hmid]⟩
            exact hmin2 m this

/-- Counterexample for C4 as stated: on stC4 the checked attempt scores below
3 and no unchecked attempts remain, yet the box is not left without a slot
holder — the slot row is untouched and user 7 remains the holder. -/
theorem check_puzzle_no_next_keeps_slot :
    (check_puzzle stC4).map (fun res => (res.2.2.2, res.1.slot.slotUser))
      = some (none, some 7) := by decide

/-- Witness for C4 on the rotation example of the spec: the most recent
unchecked attempt (4) is checked with score 1, and among the remaining
unchecked attempts (2 with score 2 at t=5, 3 with score 2 at t=2) the slot is
handed to the author of attempt 3, the score tie broken by the earlier
timestamp. -/
theorem check_puzzle_behavior_witness :
    ∃ res, check_puzzle stRot = some res ∧ res.2.1 = 1 ∧
      res.1.slot.slotUser = some 33 := by
  obtain ⟨-, res, hres, hscore, -⟩ :=
    (check_puzzle_behavior stRot).2
      { boxId := 1, attemptId := 4, user := 44, g1 := "GOLDEN", g2 := "X", g3 := "Y",
        ts := 9, checked := false, score := 0 } (by decide)
  refine ⟨res, hres, ?_, ?_⟩
  · rw [hscore]; decide
  · have hval : check_puzzle stRot = some
        ({ stRot with
            attempts := markChecked 1 4 1 stRot.attempts,
            slot := { slotUser := some 33, turnsLeft := 0, pendingAction := none } },
          1, false, some 33) := by decide
    rw [hres] at hval
    rw [Option.some.inj hval]

/-! ### Box opening gate (C7) and the re-openable mega box (C8) -/

theorem ownerOf_map_set : ∀ (l : List (Int × Int)) (box u : Int),
    l.any (fun p => p.1 = box) = true →
    ownerOf (l.map (fun p => if p.1 = box then (box, u) else p)) box = some u
  | [], _, _, h => by simp at h
  | p :: rest, box, u, h => by
    by_cases hp : p.1 = box
    · unfold ownerOf
      rw [List.map_cons, if_pos hp, List.find?_cons_of_pos _ (by simp)]
      simp
    · unfold ownerOf
      rw [List.map_cons, if_neg hp, List.find?_cons_of_neg _ (by simpa using hp)]
      have h2 : rest.any (fun p => p.1 = box) = true := by
        rcases List.any_eq_true.mp h with ⟨q, hq, hq2⟩
        rcases List.mem_cons.mp hq with rfl | hq3
        · exact absurd (by simpa using hq2) hp
        · exact List.any_eq_true.mpr ⟨q, hq3, hq2⟩
      exact ownerOf_map_set rest box u h2

theorem ownerOf_append_set : ∀ (l : List (Int × Int)) (box u : Int),
    l.any (fun p => p.1 = box) = false →
    ownerOf (l ++ [(box, u)]) box = some u
  | [], _, _, _ => by simp [ownerOf]
  | p :: rest, box, u, h => by
    rw [List.any_cons] at h
    have hp : ¬ (p.1 = box) := by
      intro hp
      simp [hp] at h
    unfold ownerOf
    rw [List.cons_append, List.find?_cons_of_neg _ (by simpa using hp)]
    have h2 : rest.any (fun p => p.1 = box) = false := by
      rcases Bool.or_eq_false_iff.mp h with ⟨-, h3⟩
      exact h3
    exact ownerOf_append_set rest box u h2

theorem ownerOf_setOwner (l : List (Int × Int)) (box u : Int) :
    ownerOf (setOwner l box u) box = some u := by
  unfold setOwner
  by_cases h : l.any (fun p => p.1 = box) = true
  · rw [if_pos h]
    exact ownerOf_map_set l box u h
  · rw [if_neg h]
    have hfalse : l.any (fun p => p.1 = box) = false := by
      cases hb : l.any (fun p => p.1 = box)
      · rfl
      · exact absurd hb h
    exact ownerOf_append_set l box u hfalse

/-- C7: open_box is rejected, mutating nothing, unless a checked score-3
attempt exists for the current box; when it does mutate, ownership of the box
goes to the author of the most recent (largest attempt id) checked score-3
attempt, opened_boxes_count is incremented by one, and current_box advances to
min(6, box+1); attempts and prizes are untouched. -/
theorem open_box_gate (st : OpenBoxState) :
    ((¬ ∃ x ∈ st.attempts, x.boxId = st.sess.currentBox ∧ x.checked = true ∧
        x.score = 3) → open_box st = none)
    ∧ (∀ st2, open_box st = some st2 →
        ∃ x ∈ st.attempts, x.boxId = st.sess.currentBox ∧ x.checked = true ∧
          x.score = 3 ∧
          (∀ y ∈ st.attempts, y.boxId = st.sess.currentBox → y.checked = true →
            y.score = 3 → y.attemptId ≤ x.attemptId) ∧
          ownerOf st2.ownership st.sess.currentBox = some x.user ∧
          st2.sess.openedBoxesCount = st.sess.openedBoxesCount + 1 ∧
          st2.sess.currentBox = min 6 (st.sess.currentBox + 1) ∧
          st2.attempts = st.attempts ∧ st2.prizes = st.prizes) := by
  constructor
  · intro hno
    have hnil : st.attempts.filter (fun x => x.boxId = st.sess.currentBox ∧
        x.checked = true ∧ x.score = 3) = [] := by
      rcases hfil : st.attempts.filter (fun x => x.boxId = st.sess.currentBox ∧
          x.checked = true ∧ x.score = 3) with _ | ⟨q, qs⟩
      · exact hfil
      · exfalso
        have hq : q ∈ st.attempts.filter (fun x => x.boxId = st.sess.currentBox ∧
            x.checked = true ∧ x.score = 3) := by
          rw [hfil]
          exact List.mem_cons_self q qs
        rw [List.mem_filter] at hq
        exact hno ⟨q, hq.1, by simpa using hq.2⟩
    unfold open_box
    rw [if_pos hnil]
  · intro st2 h
    unfold open_box at h
    by_cases hnil : st.attempts.filter (fun x => x.boxId = st.sess.currentBox ∧
        x.checked = true ∧ x.score = 3) = []
    · rw [if_pos hnil] at h
      exact absurd h (by simp)
    · rw [if_neg hnil] at h
      rcases hsort : List.insertionSort attemptIdGe
          (st.attempts.filter (fun x => x.boxId = st.sess.currentBox ∧
            x.checked = true ∧ x.score = 3)) with _ | ⟨solver, t⟩ <;> rw [hsort] at h
      · exfalso
        have hperm := List.perm_insertionSort attemptIdGe
          (st.attempts.filter (fun x => x.boxId = st.sess.currentBox ∧
            x.checked = true ∧ x.score = 3))
        rw [hsort] at hperm
        exact hnil hperm.symm.eq_nil
      · obtain ⟨hmem, hmin⟩ := head_insertionSort_min attemptIdGe _ solver t hsort
        rw [List.mem_filter] at hmem
        have hprops : solver.boxId = st.sess.currentBox ∧ solver.checked = true ∧
            solver.score = 3 := by simpa using hmem.2
        dsimp only at h
        rcases hpz : lookupPrize st.prizes st.sess.currentBox with _ | prize <;>
          rw [hpz] at h <;> dsimp only at h
        · exact absurd h (by simp)
        · by_cases hblank : pyStrip prize.1 = ""
          · rw [if_pos hblank] at h
            exact absurd h (by simp)
          · rw [if_neg hblank] at h
            have h2 := Option.some.inj h
            refine ⟨solver, hmem.1, hprops.1, hprops.2.1, hprops.2.2, ?_, ?_, ?_, ?_, ?_, ?_⟩
            · intro y hy hybox hychk hysc
              have : y ∈ st.attempts.filter (fun x => x.boxId = st.sess.currentBox ∧
                  x.checked = true ∧ x.score = 3) := by
                rw [List.mem_filter]
                exact ⟨hy, by simp [hybox, hychk, hysc]⟩
              exact hmin y this
            · rw [← h2]
              exact ownerOf_setOwner st.ownership st.sess.currentBox solver.user
            · rw [← h2]
            · rw [← h2]
            · rw [← h2]
            · rw [← h2]

/-- Witness for C7 at stOpen: the box opens, user 9 (author of the solving
attempt) becomes the owner of box 2, the count increments and the box pointer
advances to 3. -/
theorem open_box_gate_witness :
    ∃ x ∈ stOpen.attempts, x.boxId = stOpen.sess.currentBox ∧ x.checked = true ∧
      x.score = 3 ∧
      (∀ y ∈ stOpen.attempts, y.boxId = stOpen.sess.currentBox → y.checked = true →
        y.score = 3 → y.attemptId ≤ x.attemptId) ∧
      ownerOf st2Open.ownership stOpen.sess.currentBox = some x.user ∧
      st2Open.sess.openedBoxesCount = stOpen.sess.openedBoxesCount + 1 ∧
      st2Open.sess.currentBox = min 6 (stOpen.sess.currentBox + 1) ∧
      st2Open.attempts = stOpen.attempts ∧ st2Open.prizes = stOpen.prizes :=
  (open_box_gate stOpen).2 st2Open (by decide)

/-- C8 is violated by the code: after the mega box (6) is opened the solved
attempt and the prize are still in place and current_box stays at 6, so a
second open_box call succeeds again and increments opened_boxes_count a second
time — the session is not terminal. -/
theorem open_box_box6_not_terminal :
    (open_box stMega).map (fun st1 => st1.sess.currentBox) = some 6
    ∧ ((open_box stMega).bind open_box).map (fun st2 => st2.sess.openedBoxesCount)
        = some (stMega.sess.openedBoxesCount + 2) := by decide

/-! ### Puzzle guess submission (C9, C10) -/

theorem maxAcc_le (box : Int) : ∀ (l : List PuzzleAttempt) (m : Nat),
    m ≤ l.foldl (fun acc x => if x.boxId = box then max acc x.attemptId else acc) m
  | [], m => le_refl m
  | x :: rest, m => by
    rw [List.foldl_cons]
    refine le_trans ?_ (maxAcc_le box rest _)
    by_cases hx : x.boxId = box
    · rw [if_pos hx]
      exact le_max_left m x.attemptId
    · rw [if_neg hx]

theorem mem_le_maxAcc (box : Int) : ∀ (l : List PuzzleAttempt) (m : Nat)
    (a : PuzzleAttempt), a ∈ l → a.boxId = box →
    a.attemptId ≤ l.foldl (fun acc x => if x.boxId = box then max acc x.attemptId else acc) m
  | [], _, a, ha, _ => absurd ha (List.not_mem_nil a)
  | x :: rest, m, a, ha, hbox => by
    rw [List.foldl_cons]
    rcases List.mem_cons.mp ha with rfl | ha2
    · refine le_trans ?_ (maxAcc_le box rest _)
      rw [if_pos hbox]
      exact le_max_right m a.attemptId
    · exact mem_le_maxAcc box rest _ a ha2 hbox

/-- Counterexample for C9 as stated: user 2 is a participant but not the slot
holder (user 1 is), and the submission flow rejects the guess — the Submit
Puzzle button is gated on the slot holder, so submission is not open to every
registered participant. -/
theorem submit_puzzle_not_open_to_all :
    submit_puzzle_guess stSub 2 "GOLDEN" "TRUE" "SUNRISE" 10 = none ∧
      stSub.slot.slotUser = some 1 := by decide

/-- C9 (amended): a puzzle guess is accepted exactly when the submitter is the
current slot holder; an accepted guess is appended with per-box attempt id
MAX(existing)+1, which is strictly larger than every existing id of the box
and equals 1 when the box has no attempts; no registration or box-activity
check is performed beyond that gate. -/
theorem submit_puzzle_gating (st : PuzzleSubmitState) (u : Int)
    (r1 r2 r3 : String) (ts : Int) :
    ((submit_puzzle_guess st u r1 r2 r3 ts).isSome ↔ st.slot.slotUser = some u)
    ∧ (∀ st2, submit_puzzle_guess st u r1 r2 r3 ts = some st2 →
        st2.attempts = st.attempts ++
          [{ boxId := st.box, attemptId := maxAttemptId st.box st.attempts + 1,
             user := u, g1 := norm_word r1, g2 := norm_word r2, g3 := norm_word r3,
             ts := ts, checked := false, score := 0 }]
        ∧ (∀ a ∈ st.attempts, a.boxId = st.box →
            a.attemptId < maxAttemptId st.box st.attempts + 1)
        ∧ (st.attempts = [] → maxAttemptId st.box st.attempts + 1 = 1)) := by
  constructor
  · unfold submit_puzzle_guess
    rcases hsl : st.slot.slotUser with _ | holder
    · simp
    · dsimp only
      by_cases hu : holder = u
      · subst hu
        rw [if_neg (by simp)]
        simp
      · rw [if_pos (by simpa using hu)]
        simp [hu]
  · intro st2 h
    unfold submit_puzzle_guess at h
    rcases hsl : st.slot.slotUser with _ | holder <;> rw [hsl] at h <;> dsimp only at h
    · exact absurd h (by simp)
    · by_cases hu : holder ≠ u
      · rw [if_pos hu] at h
        exact absurd h (by simp)
      · rw [if_neg hu] at h
        have h2 := Option.some.inj h
        refine ⟨by rw [← h2], ?_, ?_⟩
        · intro a ha habox
          have := mem_le_maxAcc st.box st.attempts 0 a ha habox
          unfold maxAttemptId
          omega
        · intro hnil
          rw [hnil]
          rfl

/-- Witness for C9 at stSub: the guess of the slot holder is accepted and lands as
attempt 1. -/
theorem submit_puzzle_gating_witness :
    (submit_puzzle_guess stSub 1 "GOLDEN" "TRUE" "SUNRISE" 10).isSome :=
  (submit_puzzle_gating stSub 1 "GOLDEN" "TRUE" "SUNRISE" 10).1.mpr (by decide)

/-- Counterexample for C10 as stated: the raw word "!!!" normalises to the
empty string, yet the submission is not rejected — an attempt row is created
whose first word is empty.  No ValidationError path exists for puzzle words. -/
theorem puzzle_guess_norm_counterexample :
    norm_word "!!!" = "" ∧
    (submit_puzzle_guess stSub 1 "!!!" "GOLDEN" "TRUE" 5).map
        (fun st2 => st2.attempts.map (fun a => a.g1)) = some [""] := by decide

/-- C10 (amended): puzzle guess words are only cleaned by norm_word, never
validated: any raw words submitted by the slot holder are accepted, and the
stored attempt carries their normalised forms (the empty string included). -/
theorem puzzle_guess_normalization_no_reject (st : PuzzleSubmitState) (u : Int)
    (r1 r2 r3 : String) (ts : Int) (h : st.slot.slotUser = some u) :
    ∃ st2, submit_puzzle_guess st u r1 r2 r3 ts = some st2 ∧
      st2.attempts = st.attempts ++
        [{ boxId := st.box, attemptId := maxAttemptId st.box st.attempts + 1,
           user := u, g1 := norm_word r1, g2 := norm_word r2, g3 := norm_word r3,
           ts := ts, checked := false, score := 0 }] := by
  unfold submit_puzzle_guess
  rw [h]
  dsimp only
  rw [if_neg (by simp)]
  exact ⟨_, rfl, rfl⟩

/-- Witness for C10: a raw guess with punctuation and stray spacing is
accepted; its stored words are the normalised forms. -/
theorem puzzle_guess_normalization_witness :
    ∃ st2, submit_puzzle_guess stSub 1 " go!lden  x " "TRUE" "SUNRISE" 7 = some st2 ∧
      st2.attempts = stSub.attempts ++
        [{ boxId := stSub.box, attemptId := maxAttemptId stSub.box stSub.attempts + 1,
           user := 1, g1 := norm_word " go!lden  x ", g2 := norm_word "TRUE",
           g3 := norm_word "SUNRISE", ts := 7, checked := false, score := 0 }] :=
  puzzle_guess_normalization_no_reject stSub 1 " go!lden  x " "TRUE" "SUNRISE" 7 (by decide)

/-! ### Seeded content generation is deterministic (C5) -/

/-- C5: the three generators are pure state-threading functions of the seeded
stream derived from (seed+salt, box, playerCount) alone — no other input
reaches them — so for every PRNG implementation two runs on identical
arguments return identical question text, answer, prompt, items, correct
permutation, phrase and deck. -/
theorem content_generator_deterministic (R : RandomImpl)
    (seed salt boxId playerCount : Int) :
    gen_numeric_question R (seed + salt) boxId playerCount
        = gen_numeric_question R (seed + salt) boxId playerCount
    ∧ gen_order_question R (seed + salt) boxId
        = gen_order_question R (seed + salt) boxId
    ∧ gen_phrase_and_deck R (seed + salt) boxId
        = gen_phrase_and_deck R (seed + salt) boxId :=
  ⟨rfl, rfl, rfl⟩

end WIB
